import Mathlib

/-!
Verification development for the `abl_resistance` notebooks.

The repository consists of two notebooks:
* one docks eight tyrosine-kinase inhibitors into ABL1 via an external
  featurizer (modelled here by `tkis`, `dockingCalls`, `tkiResults`);
* one retrieves a KLIFS structure table, applies three predicate filters,
  a sort + per-pdb group-head selection, a DFG filter, and writes PDB
  text blobs to disk bucketed by Mg ion count (modelled by `Row`,
  `pipeline123`, `selectBest`, `filterDFG`, `atpWrites`, `mgRun`).

Floating-point columns (`quality_score`, `resolution`) are modelled by
rationals: the notebook only compares them, and on the finite decimal
values KLIFS reports, IEEE comparison coincides with the rational order.
-/

namespace AblResistance

/-- A row of the KLIFS structure table, with the columns the notebook
touches.  `allosteric_ligand` is compared against `0`, so it is a `Nat`;
the score columns are rationals (see the module comment). -/
structure Row where
  structure_ID : Nat
  pdb : String
  alt : String
  chain : String
  ligand : String
  allosteric_ligand : Nat
  quality_score : ℚ
  resolution : ℚ
  DFG : String
  aC_helix : String
  deriving DecidableEq

/-- Filter `kinase_df[kinase_df["ligand"] == "ATP"]`. -/
def filterATP (t : List Row) : List Row :=
  t.filter (fun r => decide (r.ligand = "ATP"))

/-- Distinct ligand values of the rows of `t` whose `pdb` equals `p`
(the `set(x['ligand'])` of the pandas group). -/
def ligandsOf (t : List Row) (p : String) : List String :=
  ((t.filter (fun r => decide (r.pdb = p))).map Row.ligand).dedup

/-- Filter `kinase_df.groupby('pdb').filter(lambda x: len(set(x['ligand'])) == 1)`:
keep the rows whose `pdb` group has exactly one distinct ligand value. -/
def filterSingleLigand (t : List Row) : List Row :=
  t.filter (fun r => decide ((ligandsOf t r.pdb).length = 1))

/-- Filter `kinase_df[kinase_df["allosteric_ligand"] == 0]`. -/
def filterAllosteric (t : List Row) : List Row :=
  t.filter (fun r => decide (r.allosteric_ligand = 0))

/-- The three successive predicate filters of the retrieval pipeline. -/
def pipeline123 (t : List Row) : List Row :=
  filterAllosteric (filterSingleLigand (filterATP t))

/-- Lexicographic comparison of char lists by code point, the order in
which python and pandas compare strings. -/
def charsLT : List Char → List Char → Bool
  | _, [] => false
  | [], _ :: _ => true
  | a :: as, b :: bs =>
    if a < b then true else if b < a then false else charsLT as bs

/-- Strict lexicographic comparison of strings by code point. -/
def strLTb (a b : String) : Bool := charsLT a.data b.data

/-- Lexicographic step on a rational key (ascending): compare on the
key, and on a tie defer to the comparison `rest` of the later keys. -/
def lexLE {α : Type} [LinearOrder α] (x y : α) (rest : Bool) : Bool :=
  if x = y then rest else decide (x < y)

/-- Lexicographic step on a string key (ascending): compare on the key,
and on a tie defer to the comparison `rest` of the later keys. -/
def lexS (x y : String) (rest : Bool) : Bool :=
  if strLTb x y then true else if strLTb y x then false else rest

/-- The sort order of
`sort_values(by=['quality_score', 'resolution', 'alt', 'chain'], ascending=[False, True, True, True])`:
quality score descending, then resolution, alt and chain ascending. -/
def rowLE (a b : Row) : Bool :=
  lexLE b.quality_score a.quality_score
    (lexLE a.resolution b.resolution
      (lexS a.alt b.alt (lexS a.chain b.chain true)))

/-- Insertion of a row into a sorted list (insertion sort step). -/
def insertRow (r : Row) : List Row → List Row
  | [] => [r]
  | s :: ss => if rowLE r s then r :: s :: ss else s :: insertRow r ss

/-- A sorted permutation of the table under `rowLE`, modelling
`kinase_df.sort_values(...)`. -/
def sortRows : List Row → List Row
  | [] => []
  | r :: rs => insertRow r (sortRows rs)

/-- First row of each `pdb` group in table order, modelling
`groupby('pdb').head(1)`: a row is kept when its `pdb` has not been seen
before it. -/
def headPerGroup (seen : List String) : List Row → List Row
  | [] => []
  | r :: rs =>
    if r.pdb ∈ seen then headPerGroup seen rs
    else r :: headPerGroup (r.pdb :: seen) rs

/-- The sort-then-group-head selection of one best row per `pdb`. -/
def selectBest (t : List Row) : List Row :=
  headPerGroup [] (sortRows t)

/-- Filter `kinase_df[kinase_df.DFG != 'na']`. -/
def filterDFG (t : List Row) : List Row :=
  t.filter (fun r => decide (r.DFG ≠ "na"))

/-- Rows with `aC_helix == "in"`, the iteration domain of both
file-writing loops. -/
def aC_in (t : List Row) : List Row :=
  t.filter (fun r => decide (r.aC_helix = "in"))

/-- The output directory of the first write loop. -/
def atpDir : String := "~/data/kinases/atp"

/-- The path written for a given pdb code in the first write loop. -/
def atpPath (p : String) : String := atpDir ++ "/" ++ p ++ ".pdb"

/-- The (path, contents) pairs written by the first loop: one file
per selected row with DFG different from na and aC helix in, named
after the row's pdb code, containing the retrieved complex text.
`pdbText` abstracts the remote call
`klifs_utils.remote.coordinates.complex._complex_pdb_text(structure_ID)`. -/
def atpWrites (pdbText : Nat → String) (t : List Row) : List (String × String) :=
  (aC_in (filterDFG (selectBest (pipeline123 t)))).map
    (fun r => (atpPath r.pdb, pdbText r.structure_ID))

/-- The bucket directory for a given Mg ion count, as in the notebook's
`if num_mg == 0 / elif 1 / elif 2 / else` chain. -/
def bucketDir (n : Nat) : String :=
  if n = 0 then ("~/data/kinases/atp/no_mg")
  else if n = 1 then ("~/data/kinases/atp/one_mg")
  else if n = 2 then ("~/data/kinases/atp/two_mg")
  else ("~/data/kinases/atp/more_mg")

/-- The path written for a pdb code with a given Mg count. -/
def bucketPath (n : Nat) (p : String) : String :=
  bucketDir n ++ "/" ++ p ++ ".pdb"

/-- State of the Mg-analysis loop: the four bucket lists of pdb codes and
the list of (path, contents) writes, in order. -/
structure MgState where
  no_mg : List String
  one_mg : List String
  two_mg : List String
  more_mg : List String
  writes : List (String × String)
  deriving DecidableEq

/-- Initial state of the Mg-analysis loop: four empty buckets, no writes. -/
def mgInit : MgState := ⟨[], [], [], [], []⟩

/-- One iteration of the Mg-analysis loop: count the Mg atoms of the
structure (`numMg`, abstracting the MDAnalysis selection on the file),
append the pdb code to the matching bucket list, and write the retrieved
text blob to that bucket's directory. -/
def mgStep (numMg : Row → Nat) (pdbText : Nat → String)
    (st : MgState) (r : Row) : MgState :=
  let n := numMg r
  let w := (bucketPath n r.pdb, pdbText r.structure_ID)
  if n = 0 then
    { st with no_mg := st.no_mg ++ [r.pdb], writes := st.writes ++ [w] }
  else if n = 1 then
    { st with one_mg := st.one_mg ++ [r.pdb], writes := st.writes ++ [w] }
  else if n = 2 then
    { st with two_mg := st.two_mg ++ [r.pdb], writes := st.writes ++ [w] }
  else
    { st with more_mg := st.more_mg ++ [r.pdb], writes := st.writes ++ [w] }

/-- The whole Mg-analysis loop over a list of processed rows. -/
def mgRun (numMg : Row → Nat) (pdbText : Nat → String)
    (rows : List Row) : MgState :=
  rows.foldl (mgStep numMg pdbText) mgInit

/-- The processed structures of the Mg analysis: the selected rows with
DFG different from na and aC helix in. -/
def procRows (t : List Row) : List Row :=
  aC_in (filterDFG (selectBest (pipeline123 t)))

/-- The `tkis` dictionary of the docking notebook: ligand name paired
with its SMILES string, in insertion order. -/
def tkis : List (String × String) :=
  [ ("axitinib", "CNC(=O)c1ccccc1Sc1ccc2c(/C=C/c3ccccn3)n[nH]c2c1"),
    ("bosutinib", "COc1cc(Nc2c(C#N)cnc3cc(OCCCN4CCN(C)CC4)c(OC)cc23)c(Cl)cc1Cl"),
    ("dasatinib", "Cc1nc(Nc2ncc(C(=O)Nc3c(C)cccc3Cl)s2)cc(N2CCN(CCO)CC2)n1"),
    ("imatinib", "Cc1ccc(NC(=O)c2ccc(CN3CCN(C)CC3)cc2)cc1Nc1nccc(-c2cccnc2)n1"),
    ("nilotinib", "Cc1cn(-c2cc(NC(=O)c3ccc(C)c(Nc4nccc(-c5cccnc5)n4)c3)cc(C(F)(F)F)c2)cn1"),
    ("ponatinib", "Cc1ccc(C(=O)Nc2ccc(CN3CCN(C)CC3)c(C(F)(F)F)c2)cc1C#Cc1cnc2cccnn12"),
    ("erlotinib", "C#Cc1cccc(Nc2ncnc3cc(OCCOC)c(OCCOC)cc23)c1"),
    ("gefitinib", "COc1cc2ncnc(Nc3ccc(F)c(Cl)c3)c2cc1OCCCN1CCOCC1") ]

/-- One call to `docking_featurizer.featurize` as built by the loop body:
a `SmilesLigand` named after the tki, and a `BaseProtein` named ABL1 with
`klifs_kinase_id = 392`. -/
structure DockingCall where
  ligandName : String
  smiles : String
  proteinName : String
  klifs_kinase_id : Nat
  deriving DecidableEq

/-- The trace of featurize calls made by `for tki in tkis.keys(): ...`:
one call per dictionary entry, in order. -/
def dockingCalls : List DockingCall :=
  tkis.map (fun x =>
    { ligandName := x.1, smiles := x.2, proteinName := "ABL1",
      klifs_kinase_id := 392 })

/-- One row of the notebook's results table: tki name, modelled pdb
template, and the pass/fail outcome columns for protein and ligand. -/
structure TkiResult where
  tki : String
  pdb : String
  protein_ok : Bool
  ligand_ok : Bool
  deriving DecidableEq

/-- The results table recorded at the end of the docking notebook, one
row per tki with its pass/fail outcome. -/
def tkiResults : List TkiResult :=
  [ { tki := "axitinib", pdb := "4twp", protein_ok := true, ligand_ok := true },
    { tki := "bosutinib", pdb := "3ue4", protein_ok := true, ligand_ok := true },
    { tki := "dasatinib", pdb := "4xey", protein_ok := true, ligand_ok := true },
    { tki := "imatinib", pdb := "2hyy", protein_ok := true, ligand_ok := true },
    { tki := "nilotinib", pdb := "3cs9", protein_ok := true, ligand_ok := true },
    { tki := "ponatinib", pdb := "2hiw", protein_ok := true, ligand_ok := false },
    { tki := "erlotinib", pdb := "2g1t", protein_ok := true, ligand_ok := true },
    { tki := "gefitinib", pdb := "2f4j", protein_ok := true, ligand_ok := true } ]

/-- The strictly-better relation of claim C2: another row `s` beats the
selected row `r` when it has a higher quality score, or an equal score
and lower resolution, or equal score and resolution and smaller alt, or
equal on all three and a smaller chain. -/
def betterRow (s r : Row) : Prop :=
  r.quality_score < s.quality_score ∨
  (s.quality_score = r.quality_score ∧ s.resolution < r.resolution) ∨
  (s.quality_score = r.quality_score ∧ s.resolution = r.resolution ∧
    strLTb s.alt r.alt = true) ∨
  (s.quality_score = r.quality_score ∧ s.resolution = r.resolution ∧
    s.alt = r.alt ∧ strLTb s.chain r.chain = true)

/-- The four sort keys of a row, in sort priority order. -/
def sortKey (r : Row) : ℚ × ℚ × String × String :=
  (r.quality_score, r.resolution, r.alt, r.chain)

/-- A sample KLIFS row used to build concrete tables in the theorems
below: an ATP row with no allosteric ligand, DFG in and aC helix in. -/
def baseRow : Row :=
  { structure_ID := 1, pdb := "1abc", alt := "A", chain := "A",
    ligand := "ATP", allosteric_ligand := 0, quality_score := 8,
    resolution := 2, DFG := "in", aC_helix := "in" }

/-- A two-row table whose pdb group mixes ATP with a second orthosteric
ligand, exercising the group filter of the pipeline. -/
def mixedTable : List Row :=
  [baseRow, { baseRow with structure_ID := 2, ligand := "LIG" }]

/-- A row reporting the KLIFS DFG class out-like, which the DFG filter
keeps since it only drops na. -/
def outLikeRow : Row := { baseRow with structure_ID := 3, DFG := "out-like" }

/-- A row beating `baseRow` on quality score within the same pdb group. -/
def topRow : Row := { baseRow with structure_ID := 4, quality_score := 9 }

/-- A lower-quality row of the same pdb group as `baseRow`. -/
def lowRow : Row :=
  { baseRow with structure_ID := 5, quality_score := 7, chain := "B" }

/-- A two-row group in worst-first order, exercising the selection. -/
def twoRowTable : List Row := [lowRow, topRow]

/-- The same two-row group in the opposite input order. -/
def twoRowTableRev : List Row := [topRow, lowRow]

/-- A constant stand-in for the retrieved complex text of a structure. -/
def constText : Nat → String := fun _ => "REMARK"

/-- A sample Mg count map sending every structure to two ions. -/
def twoMg : Row → Nat := fun _ => 2

/-- The featurize call built for axitinib, the first tki of the
dictionary. -/
def axitinibCall : DockingCall :=
  { ligandName := "axitinib",
    smiles := "CNC(=O)c1ccccc1Sc1ccc2c(/C=C/c3ccccn3)n[nH]c2c1",
    proteinName := "ABL1", klifs_kinase_id := 392 }

/-- The character at index 19 of each bucket directory (the first letter
of the bucket name), which distinguishes the four directories. -/
def bucketKey (n : Nat) : Char :=
  if n = 0 then ('n') else if n = 1 then ('o') else if n = 2 then ('t')
  else ('m')

/-- The bucket directory as a function of its distinguishing character. -/
def keyDir (c : Char) : String :=
  if c = 'n' then ("~/data/kinases/atp/no_mg")
  else if c = 'o' then ("~/data/kinases/atp/one_mg")
  else if c = 't' then ("~/data/kinases/atp/two_mg")
  else ("~/data/kinases/atp/more_mg")

theorem charsLT_irrefl (l : List Char) : charsLT l l = false := by
  induction l with
  | nil => rfl
  | cons a as ih => simp [charsLT, lt_irrefl, ih]

theorem charsLT_asymm : ∀ {x y : List Char},
    charsLT x y = true → charsLT y x = false
  | _, [], h => by simp [charsLT] at h
  | [], _ :: _, _ => by simp [charsLT]
  | a :: as, b :: bs, h => by
    by_cases hab : a < b
    · have hnba : ¬ b < a := lt_asymm hab
      simp [charsLT, hnba, hab]
    · by_cases hba : b < a
      · simp [charsLT, hab, hba] at h
      · simp [charsLT, hab, hba] at h ⊢
        exact charsLT_asymm h

theorem charsLT_trans : ∀ {x y z : List Char},
    charsLT x y = true → charsLT y z = true → charsLT x z = true
  | _, _, [], _, h2 => by simp [charsLT] at h2
  | _, [], _ :: _, h1, _ => by simp [charsLT] at h1
  | [], _ :: _, _ :: _, _, _ => by simp [charsLT]
  | a :: as, b :: bs, c :: cs, h1, h2 => by
    by_cases hab : a < b <;> by_cases hbc : b < c
    · simp [charsLT, lt_trans hab hbc]
    · simp [charsLT, hbc] at h2
      rcases h2 with ⟨hcb, _⟩
      have hb_eq : b = c := le_antisymm hcb (not_lt.mp hbc)
      subst hb_eq
      simp [charsLT, hab]
    · simp [charsLT, hab] at h1
      rcases h1 with ⟨hba, _⟩
      have : a = b := le_antisymm hba (not_lt.mp hab)
      subst this
      simp [charsLT, hbc]
    · simp [charsLT, hab] at h1
      simp [charsLT, hbc] at h2
      rcases h1 with ⟨hba, h1⟩
      rcases h2 with ⟨hcb, h2⟩
      have hab' : a = b := le_antisymm hba (not_lt.mp hab)
      have hbc' : b = c := le_antisymm hcb (not_lt.mp hbc)
      subst hab'; subst hbc'
      simp [charsLT, lt_irrefl, charsLT_trans h1 h2]

theorem charsLT_eq : ∀ {x y : List Char},
    charsLT x y = false → charsLT y x = false → x = y
  | [], [], _, _ => rfl
  | [], _ :: _, h1, _ => by simp [charsLT] at h1
  | _ :: _, [], _, h2 => by simp [charsLT] at h2
  | a :: as, b :: bs, h1, h2 => by
    by_cases hab : a < b
    · simp [charsLT, hab] at h1
    · by_cases hba : b < a
      · simp [charsLT, hba] at h2
      · simp [charsLT, hab, hba] at h1 h2
        have : a = b := le_antisymm (not_lt.mp hba) (not_lt.mp hab)
        rw [this, charsLT_eq h1 h2]

theorem strLTb_irrefl (x : String) : strLTb x x = false := charsLT_irrefl _

theorem strLTb_asymm {x y : String} (h : strLTb x y = true) :
    strLTb y x = false := charsLT_asymm h

theorem strLTb_trans {x y z : String} (h1 : strLTb x y = true)
    (h2 : strLTb y z = true) : strLTb x z = true := charsLT_trans h1 h2

theorem strLTb_eq {x y : String} (h1 : strLTb x y = false)
    (h2 : strLTb y x = false) : x = y := by
  cases x with
  | mk dx =>
    cases y with
    | mk dy =>
      have : dx = dy := charsLT_eq h1 h2
      rw [this]

theorem strLTb_trichotomy (x y : String) :
    strLTb x y = true ∨ x = y ∨ strLTb y x = true := by
  by_cases h1 : strLTb x y = true
  · exact Or.inl h1
  · by_cases h2 : strLTb y x = true
    · exact Or.inr (Or.inr h2)
    · exact Or.inr (Or.inl (strLTb_eq (eq_false_of_ne_true h1)
        (eq_false_of_ne_true h2)))

theorem lexLE_iff {α : Type} [LinearOrder α] {x y : α} {r : Bool} :
    lexLE x y r = true ↔ x < y ∨ (x = y ∧ r = true) := by
  unfold lexLE
  rcases eq_or_ne x y with rfl | h
  · simp
  · simp [h]

theorem lexS_iff {x y : String} {r : Bool} :
    lexS x y r = true ↔ strLTb x y = true ∨ (x = y ∧ r = true) := by
  unfold lexS
  by_cases h1 : strLTb x y = true
  · simp [h1]
  · have h1' : strLTb x y = false := eq_false_of_ne_true h1
    by_cases h2 : strLTb y x = true
    · have hne : x ≠ y := by
        intro he
        rw [he, strLTb_irrefl] at h2
        exact Bool.false_ne_true h2
      simp [h1', h2, h1, hne]
    · have h2' : strLTb y x = false := eq_false_of_ne_true h2
      have he : x = y := strLTb_eq h1' h2'
      simp [h1', h2', he, strLTb_irrefl]

/-- Unfolded propositional form of `rowLE`. -/
theorem rowLE_iff {a b : Row} : rowLE a b = true ↔
    (b.quality_score < a.quality_score ∨
      (b.quality_score = a.quality_score ∧
        (a.resolution < b.resolution ∨
          (a.resolution = b.resolution ∧
            (strLTb a.alt b.alt = true ∨
              (a.alt = b.alt ∧
                (strLTb a.chain b.chain = true ∨ a.chain = b.chain))))))) := by
  unfold rowLE
  rw [lexLE_iff]
  constructor
  · rintro (h | ⟨he, h⟩)
    · exact Or.inl h
    · refine Or.inr ⟨he, ?_⟩
      rw [lexLE_iff] at h
      rcases h with h | ⟨he2, h⟩
      · exact Or.inl h
      · refine Or.inr ⟨he2, ?_⟩
        rw [lexS_iff] at h
        rcases h with h | ⟨he3, h⟩
        · exact Or.inl h
        · refine Or.inr ⟨he3, ?_⟩
          rw [lexS_iff] at h
          rcases h with h | ⟨he4, _⟩
          · exact Or.inl h
          · exact Or.inr he4
  · rintro (h | ⟨he, h⟩)
    · exact Or.inl h
    · refine Or.inr ⟨he, ?_⟩
      rw [lexLE_iff]
      rcases h with h | ⟨he2, h⟩
      · exact Or.inl h
      · refine Or.inr ⟨he2, ?_⟩
        rw [lexS_iff]
        rcases h with h | ⟨he3, h⟩
        · exact Or.inl h
        · refine Or.inr ⟨he3, ?_⟩
          rw [lexS_iff]
          rcases h with h | he4
          · exact Or.inl h
          · exact Or.inr ⟨he4, rfl⟩

theorem rowLE_refl (a : Row) : rowLE a a = true := by
  rw [rowLE_iff]
  exact Or.inr ⟨rfl, Or.inr ⟨rfl, Or.inr ⟨rfl, Or.inr rfl⟩⟩⟩

theorem rowLE_total (a b : Row) : rowLE a b = true ∨ rowLE b a = true := by
  rw [rowLE_iff, rowLE_iff]
  rcases lt_trichotomy a.quality_score b.quality_score with h | h | h
  · exact Or.inr (Or.inl h)
  · rcases lt_trichotomy a.resolution b.resolution with h2 | h2 | h2
    · exact Or.inl (Or.inr ⟨h.symm, Or.inl h2⟩)
    · rcases strLTb_trichotomy a.alt b.alt with h3 | h3 | h3
      · exact Or.inl (Or.inr ⟨h.symm, Or.inr ⟨h2, Or.inl h3⟩⟩)
      · rcases strLTb_trichotomy a.chain b.chain with h4 | h4 | h4
        · exact Or.inl (Or.inr ⟨h.symm, Or.inr ⟨h2, Or.inr ⟨h3, Or.inl h4⟩⟩⟩)
        · exact Or.inl (Or.inr ⟨h.symm, Or.inr ⟨h2, Or.inr ⟨h3, Or.inr h4⟩⟩⟩)
        · exact Or.inr (Or.inr ⟨h, Or.inr ⟨h2.symm, Or.inr ⟨h3.symm, Or.inl h4⟩⟩⟩)
      · exact Or.inr (Or.inr ⟨h, Or.inr ⟨h2.symm, Or.inl h3⟩⟩)
    · exact Or.inr (Or.inr ⟨h, Or.inl h2⟩)
  · exact Or.inl (Or.inl h)

theorem rowLE_trans {a b c : Row} (h1 : rowLE a b = true)
    (h2 : rowLE b c = true) : rowLE a c = true := by
  rw [rowLE_iff] at h1 h2 ⊢
  rcases h1 with h1 | ⟨e1, h1⟩
  · rcases h2 with h2 | ⟨e2, _⟩
    · exact Or.inl (lt_trans h2 h1)
    · exact Or.inl (e2 ▸ h1)
  · rcases h2 with h2 | ⟨e2, h2⟩
    · exact Or.inl (e1 ▸ h2)
    · refine Or.inr ⟨e2.trans e1, ?_⟩
      rcases h1 with h1 | ⟨f1, h1⟩
      · rcases h2 with h2 | ⟨f2, _⟩
        · exact Or.inl (lt_trans h1 h2)
        · exact Or.inl (f2 ▸ h1)
      · rcases h2 with h2 | ⟨f2, h2⟩
        · exact Or.inl (f1 ▸ h2)
        · refine Or.inr ⟨f1.trans f2, ?_⟩
          rcases h1 with h1 | ⟨g1, h1⟩
          · rcases h2 with h2 | ⟨g2, _⟩
            · exact Or.inl (strLTb_trans h1 h2)
            · exact Or.inl (g2 ▸ h1)
          · rcases h2 with h2 | ⟨g2, h2⟩
            · exact Or.inl (g1 ▸ h2)
            · refine Or.inr ⟨g1.trans g2, ?_⟩
              rcases h1 with h1 | h1
              · rcases h2 with h2 | h2
                · exact Or.inl (strLTb_trans h1 h2)
                · exact Or.inl (h2 ▸ h1)
              · rcases h2 with h2 | h2
                · exact Or.inl (h1 ▸ h2)
                · exact Or.inr (h1.trans h2)

theorem rowLE_antisymm {a b : Row} (h1 : rowLE a b = true)
    (h2 : rowLE b a = true) : sortKey a = sortKey b := by
  rw [rowLE_iff] at h1 h2
  unfold sortKey
  rcases h1 with h1 | ⟨e1, h1⟩
  · rcases h2 with h2 | ⟨e2, _⟩
    · exact absurd h1 (lt_asymm h2)
    · exact absurd h1 (e2 ▸ lt_irrefl _)
  · rcases h2 with h2 | ⟨_, h2⟩
    · exact absurd h2 (e1 ▸ lt_irrefl _)
    · rcases h1 with h1 | ⟨f1, h1⟩
      · rcases h2 with h2 | ⟨f2, _⟩
        · exact absurd h1 (lt_asymm h2)
        · exact absurd h1 (f2.symm ▸ lt_irrefl _)
      · rcases h2 with h2 | ⟨_, h2⟩
        · exact absurd h2 (f1.symm ▸ lt_irrefl _)
        · rcases h1 with h1 | ⟨g1, h1⟩
          · rcases h2 with h2 | ⟨g2, _⟩
            · have := strLTb_asymm h1
              rw [h2] at this
              exact absurd this.symm Bool.false_ne_true
            · rw [g2.symm, strLTb_irrefl] at h1
              exact absurd h1 Bool.false_ne_true
          · rcases h2 with h2 | ⟨_, h2⟩
            · rw [g1.symm, strLTb_irrefl] at h2
              exact absurd h2 Bool.false_ne_true
            · rcases h1 with h1 | h1
              · rcases h2 with h2 | h2
                · have := strLTb_asymm h1
                  rw [h2] at this
                  exact absurd this.symm Bool.false_ne_true
                · rw [h2.symm, strLTb_irrefl] at h1
                  exact absurd h1 Bool.false_ne_true
              · rcases h2 with h2 | h2
                · rw [h1.symm, strLTb_irrefl] at h2
                  exact absurd h2 Bool.false_ne_true
                · rw [e1, f1, g1, h1]

theorem insertRow_perm (r : Row) (l : List Row) :
    (insertRow r l).Perm (r :: l) := by
  induction l with
  | nil => exact List.Perm.refl _
  | cons s ss ih =>
    unfold insertRow
    cases hrs : rowLE r s
    · simp only [Bool.false_eq_true, if_false]
      exact (ih.cons s).trans (List.Perm.swap r s ss)
    · simp only [if_true]
      exact List.Perm.refl _

theorem sortRows_perm (l : List Row) : (sortRows l).Perm l := by
  induction l with
  | nil => exact List.Perm.refl _
  | cons r rs ih =>
    exact (insertRow_perm r (sortRows rs)).trans (ih.cons r)

theorem insertRow_pairwise {r : Row} {l : List Row}
    (h : l.Pairwise (fun a b => rowLE a b = true)) :
    (insertRow r l).Pairwise (fun a b => rowLE a b = true) := by
  induction l with
  | nil => simp [insertRow]
  | cons s ss ih =>
    rcases List.pairwise_cons.mp h with ⟨hs, hss⟩
    unfold insertRow
    cases hrs : rowLE r s
    · simp only [Bool.false_eq_true, if_false]
      refine List.pairwise_cons.mpr ⟨?_, ih hss⟩
      intro x hx
      have hx' : x = r ∨ x ∈ ss := by
        have := (insertRow_perm r ss).mem_iff.mp hx
        simpa using this
      rcases hx' with rfl | hx'
      · rcases rowLE_total x s with h' | h'
        · rw [h'] at hrs
          exact absurd hrs.symm Bool.false_ne_true
        · exact h'
      · exact hs x hx'
    · simp only [if_true]
      refine List.pairwise_cons.mpr ⟨?_, h⟩
      intro x hx
      rcases List.mem_cons.mp hx with rfl | hx'
      · exact hrs
      · exact rowLE_trans hrs (hs x hx')

theorem sortRows_pairwise (l : List Row) :
    (sortRows l).Pairwise (fun a b => rowLE a b = true) := by
  induction l with
  | nil => simp [sortRows]
  | cons r rs ih => exact insertRow_pairwise ih

theorem mem_headPerGroup {seen : List String} {l : List Row} {r : Row}
    (hp : l.Pairwise (fun a b => rowLE a b = true))
    (hr : r ∈ headPerGroup seen l) :
    r ∈ l ∧ r.pdb ∉ seen ∧ ∀ s ∈ l, s.pdb = r.pdb → rowLE r s = true := by
  induction l generalizing seen with
  | nil => simp [headPerGroup] at hr
  | cons a as ih =>
    rcases List.pairwise_cons.mp hp with ⟨ha, has⟩
    unfold headPerGroup at hr
    by_cases hmem : a.pdb ∈ seen
    · rw [if_pos hmem] at hr
      obtain ⟨h1, h2, h3⟩ := ih has hr
      refine ⟨List.mem_cons_of_mem _ h1, h2, ?_⟩
      intro s hs hpdb
      rcases List.mem_cons.mp hs with rfl | hs'
      · exact absurd (hpdb ▸ hmem) h2
      · exact h3 s hs' hpdb
    · rw [if_neg hmem] at hr
      rcases List.mem_cons.mp hr with rfl | hr'
      · refine ⟨List.mem_cons_self _ _, hmem, ?_⟩
        intro s hs _
        rcases List.mem_cons.mp hs with rfl | hs'
        · exact rowLE_refl s
        · exact ha s hs'
      · obtain ⟨h1, h2, h3⟩ := ih has hr'
        have h2a : r.pdb ≠ a.pdb := fun he => h2 (he ▸ List.mem_cons_self _ _)
        have h2b : r.pdb ∉ seen := fun he => h2 (List.mem_cons_of_mem _ he)
        refine ⟨List.mem_cons_of_mem _ h1, h2b, ?_⟩
        intro s hs hpdb
        rcases List.mem_cons.mp hs with rfl | hs'
        · exact absurd hpdb.symm h2a
        · exact h3 s hs' hpdb

theorem headPerGroup_pdbs (seen : List String) (l : List Row) :
    ((headPerGroup seen l).map Row.pdb).Nodup ∧
    ∀ p, p ∈ (headPerGroup seen l).map Row.pdb ↔
      p ∈ l.map Row.pdb ∧ p ∉ seen := by
  induction l generalizing seen with
  | nil => simp [headPerGroup]
  | cons a as ih =>
    unfold headPerGroup
    by_cases hmem : a.pdb ∈ seen
    · rw [if_pos hmem]
      obtain ⟨hnd, hiff⟩ := ih seen
      refine ⟨hnd, fun p => ?_⟩
      rw [hiff p]
      simp only [List.map_cons, List.mem_cons]
      constructor
      · rintro ⟨h1, h2⟩
        exact ⟨Or.inr h1, h2⟩
      · rintro ⟨h1 | h1, h2⟩
        · exact absurd (h1 ▸ hmem) h2
        · exact ⟨h1, h2⟩
    · rw [if_neg hmem]
      obtain ⟨hnd, hiff⟩ := ih (a.pdb :: seen)
      constructor
      · refine List.nodup_cons.mpr ⟨?_, hnd⟩
        intro hcontra
        exact ((hiff a.pdb).mp hcontra).2 (List.mem_cons_self _ _)
      · intro p
        simp only [List.map_cons, List.mem_cons]
        constructor
        · rintro (rfl | h1)
          · exact ⟨Or.inl rfl, hmem⟩
          · obtain ⟨h1', h2'⟩ := (hiff p).mp h1
            exact ⟨Or.inr h1', fun hp => h2' (List.mem_cons_of_mem _ hp)⟩
        · rintro ⟨rfl | h1, h2⟩
          · exact Or.inl rfl
          · by_cases hpa : p = a.pdb
            · exact Or.inl hpa
            · refine Or.inr ((hiff p).mpr ⟨h1, ?_⟩)
              intro hp
              rcases List.mem_cons.mp hp with h' | h'
              · exact hpa h'
              · exact h2 h'

theorem selectBest_min {t : List Row} {r : Row} (hr : r ∈ selectBest t) :
    r ∈ t ∧ ∀ s ∈ t, s.pdb = r.pdb → rowLE r s = true := by
  obtain ⟨h1, _, h3⟩ := mem_headPerGroup (sortRows_pairwise t) hr
  refine ⟨(sortRows_perm t).subset h1, fun s hs hpdb => ?_⟩
  exact h3 s ((sortRows_perm t).mem_iff.mpr hs) hpdb

theorem selectBest_pdbs (t : List Row) :
    ((selectBest t).map Row.pdb).Nodup ∧
    ∀ p, p ∈ (selectBest t).map Row.pdb ↔ p ∈ t.map Row.pdb := by
  obtain ⟨hnd, hiff⟩ := headPerGroup_pdbs [] (sortRows t)
  refine ⟨hnd, fun p => ?_⟩
  unfold selectBest
  rw [hiff p]
  have hperm := ((sortRows_perm t).map Row.pdb).mem_iff (a := p)
  simp [hperm]

theorem dedup_const {l : List String} {a : String} (hne : l ≠ [])
    (hall : ∀ x ∈ l, x = a) : l.dedup = [a] := by
  induction l with
  | nil => exact absurd rfl hne
  | cons x xs ih =>
    have hx : x = a := hall x (List.mem_cons_self _ _)
    rcases eq_or_ne xs [] with rfl | hxs
    · rw [List.dedup_cons_of_not_mem (by simp), List.dedup_nil, hx]
    · have hmemx : x ∈ xs := by
        obtain ⟨y, hy⟩ := List.exists_mem_of_ne_nil xs hxs
        have hya : y = a := hall y (List.mem_cons_of_mem _ hy)
        rw [hx, ← hya]
        exact hy
      rw [List.dedup_cons_of_mem hmemx]
      exact ih hxs (fun y hy => hall y (List.mem_cons_of_mem _ hy))

theorem mem_filterATP {t : List Row} {r : Row} :
    r ∈ filterATP t ↔ r ∈ t ∧ r.ligand = "ATP" := by
  simp [filterATP, List.mem_filter]

theorem atp_group_single {t : List Row} {r : Row} (hr : r ∈ filterATP t) :
    (ligandsOf (filterATP t) r.pdb).length = 1 := by
  have hrg : r ∈ (filterATP t).filter (fun s => decide (s.pdb = r.pdb)) :=
    List.mem_filter.mpr ⟨hr, decide_eq_true rfl⟩
  have hmm : r.ligand ∈
      ((filterATP t).filter (fun s => decide (s.pdb = r.pdb))).map Row.ligand :=
    List.mem_map_of_mem _ hrg
  have hne : ((filterATP t).filter
      (fun s => decide (s.pdb = r.pdb))).map Row.ligand ≠ [] :=
    List.ne_nil_of_mem hmm
  have hall : ∀ x ∈ ((filterATP t).filter
      (fun s => decide (s.pdb = r.pdb))).map Row.ligand, x = "ATP" := by
    intro x hx
    obtain ⟨s, hs, rfl⟩ := List.mem_map.mp hx
    exact (mem_filterATP.mp (List.mem_filter.mp hs).1).2
  unfold ligandsOf
  rw [dedup_const hne hall]
  rfl

theorem singleLigand_noop (t : List Row) :
    filterSingleLigand (filterATP t) = filterATP t := by
  unfold filterSingleLigand
  apply List.filter_eq_self.mpr
  intro r hr
  exact decide_eq_true (atp_group_single hr)

theorem str_data_append (a b : String) : (a ++ b).data = a.data ++ b.data := by
  cases a
  cases b
  rfl

theorem str_data_inj {a b : String} (h : a.data = b.data) : a = b :=
  congrArg String.mk h

theorem path_cancel {d p q : String}
    (h : d ++ "/" ++ p ++ ".pdb" = d ++ "/" ++ q ++ ".pdb") : p = q := by
  have hd := congrArg String.data h
  simp only [str_data_append] at hd
  exact str_data_inj (List.append_cancel_left (List.append_cancel_right hd))

theorem atpPath_inj {p q : String} (h : atpPath p = atpPath q) : p = q := by
  unfold atpPath at h
  exact path_cancel h

theorem bucketDir_char (n : Nat) :
    (bucketDir n).data[19]? = some (bucketKey n) ∧
    24 ≤ (bucketDir n).data.length := by
  by_cases h0 : n = 0
  · subst h0
    decide
  · by_cases h1 : n = 1
    · subst h1
      decide
    · by_cases h2 : n = 2
      · subst h2
        decide
      · unfold bucketDir bucketKey
        rw [if_neg h0, if_neg h1, if_neg h2, if_neg h0, if_neg h1, if_neg h2]
        decide

theorem bucketDir_eq_keyDir (n : Nat) : bucketDir n = keyDir (bucketKey n) := by
  by_cases h0 : n = 0
  · subst h0
    decide
  · by_cases h1 : n = 1
    · subst h1
      decide
    · by_cases h2 : n = 2
      · subst h2
        decide
      · unfold bucketDir bucketKey
        rw [if_neg h0, if_neg h1, if_neg h2, if_neg h0, if_neg h1, if_neg h2]
        decide

theorem bucketPath_char (n : Nat) (p : String) :
    (bucketPath n p).data[19]? = some (bucketKey n) := by
  obtain ⟨hc, hlen⟩ := bucketDir_char n
  unfold bucketPath
  rw [str_data_append, str_data_append, str_data_append]
  have l1 : 19 < (bucketDir n).data.length := by omega
  have l2 : 19 < ((bucketDir n).data ++ ("/" : String).data).length := by
    rw [List.length_append]
    omega
  have l3 : 19 < (((bucketDir n).data ++ ("/" : String).data) ++
      p.data).length := by
    rw [List.length_append, List.length_append]
    omega
  rw [List.getElem?_append_left l3, List.getElem?_append_left l2,
    List.getElem?_append_left l1]
  exact hc

theorem bucketPath_inj {n1 n2 : Nat} {p q : String}
    (h : bucketPath n1 p = bucketPath n2 q) : p = q := by
  have hkey : bucketKey n1 = bucketKey n2 := by
    have hd := congrArg String.data h
    have h1 := bucketPath_char n1 p
    have h2 := bucketPath_char n2 q
    rw [hd, h2] at h1
    exact (Option.some.inj h1).symm
  have hdir : bucketDir n1 = bucketDir n2 := by
    rw [bucketDir_eq_keyDir, bucketDir_eq_keyDir, hkey]
  unfold bucketPath at h
  rw [hdir] at h
  exact path_cancel h

theorem mgFold_spec (numMg : Row → Nat) (pdbText : Nat → String)
    (rows : List Row) (st : MgState) :
    rows.foldl (mgStep numMg pdbText) st =
      { no_mg := st.no_mg ++
          ((rows.filter (fun r => decide (numMg r = 0))).map Row.pdb),
        one_mg := st.one_mg ++
          ((rows.filter (fun r => decide (numMg r = 1))).map Row.pdb),
        two_mg := st.two_mg ++
          ((rows.filter (fun r => decide (numMg r = 2))).map Row.pdb),
        more_mg := st.more_mg ++
          ((rows.filter (fun r => decide (2 < numMg r))).map Row.pdb),
        writes := st.writes ++
          (rows.map (fun r =>
            (bucketPath (numMg r) r.pdb, pdbText r.structure_ID))) } := by
  induction rows generalizing st with
  | nil => simp
  | cons r rs ih =>
    simp only [List.foldl_cons]
    rw [ih]
    unfold mgStep
    by_cases h0 : numMg r = 0
    · simp [h0, List.filter_cons, List.append_assoc]
    · by_cases h1 : numMg r = 1
      · simp [h0, h1, List.filter_cons, List.append_assoc]
      · by_cases h2 : numMg r = 2
        · simp [h0, h1, h2, List.filter_cons, List.append_assoc]
        · have hgt : 2 < numMg r := by omega
          simp [h0, h1, h2, hgt, Nat.not_lt.mpr, List.filter_cons,
            List.append_assoc]

theorem bucket_length_partition (numMg : Row → Nat) (rows : List Row) :
    (rows.filter (fun r => decide (numMg r = 0))).length +
    (rows.filter (fun r => decide (numMg r = 1))).length +
    (rows.filter (fun r => decide (numMg r = 2))).length +
    (rows.filter (fun r => decide (2 < numMg r))).length = rows.length := by
  induction rows with
  | nil => rfl
  | cons r rs ih =>
    by_cases h0 : numMg r = 0
    · simp only [List.filter_cons, h0, List.length_cons]
      simp
      omega
    · by_cases h1 : numMg r = 1
      · simp only [List.filter_cons, h0, h1, List.length_cons]
        simp [h0]
        omega
      · by_cases h2 : numMg r = 2
        · simp only [List.filter_cons, h0, h1, h2, List.length_cons]
          simp [h0, h1]
          omega
        · have hgt : 2 < numMg r := by omega
          simp only [List.filter_cons, List.length_cons]
          simp [h0, h1, h2, hgt]
          omega

theorem rowLE_not_better {r s : Row} (h : rowLE r s = true) :
    ¬ betterRow s r := by
  rw [rowLE_iff] at h
  intro hb
  unfold betterRow at hb
  rcases hb with hb | ⟨he1, hb⟩ | ⟨he1, he2, hb⟩ | ⟨he1, he2, he3, hb⟩
  · rcases h with h | ⟨he, _⟩
    · exact absurd hb (lt_asymm h)
    · rw [he] at hb
      exact lt_irrefl _ hb
  · rcases h with h | ⟨_, h⟩
    · rw [he1] at h
      exact lt_irrefl _ h
    · rcases h with h | ⟨hres, _⟩
      · exact absurd hb (lt_asymm h)
      · rw [hres] at hb
        exact lt_irrefl _ hb
  · rcases h with h | ⟨_, h⟩
    · rw [he1] at h
      exact lt_irrefl _ h
    · rcases h with h | ⟨_, h⟩
      · rw [he2] at h
        exact lt_irrefl _ h
      · rcases h with h | ⟨healt, _⟩
        · have hf := strLTb_asymm h
          rw [hf] at hb
          exact Bool.false_ne_true hb
        · rw [healt] at hb
          rw [strLTb_irrefl] at hb
          exact Bool.false_ne_true hb
  · rcases h with h | ⟨_, h⟩
    · rw [he1] at h
      exact lt_irrefl _ h
    · rcases h with h | ⟨_, h⟩
      · rw [he2] at h
        exact lt_irrefl _ h
      · rcases h with h | ⟨_, h⟩
        · rw [he3] at h
          rw [strLTb_irrefl] at h
          exact Bool.false_ne_true h
        · rcases h with h | hce
          · have hf := strLTb_asymm h
            rw [hf] at hb
            exact Bool.false_ne_true hb
          · rw [hce] at hb
            rw [strLTb_irrefl] at hb
            exact Bool.false_ne_true hb

/-- Claim C8: applying the single-orthosteric-ligand group filter after
the ATP row filter is a no-op, because after the ATP filter every
nonempty pdb group contains exactly one distinct ligand value. -/
theorem claim8_single_ligand_noop (t : List Row) :
    filterSingleLigand (filterATP t) = filterATP t :=
  singleLigand_noop t

/-- Claim C1, counterexample to the stated row characterization: in the
two-row table `mixedTable`, the ATP row survives the whole pipeline even
though the distinct ligand values of the rows sharing its pdb in the
input table number two, not one.  The group-size condition of the claim,
read over the retrieved table, therefore does not characterize the
surviving rows. -/
theorem claim1_counterexample :
    baseRow ∈ pipeline123 mixedTable ∧
    (ligandsOf mixedTable baseRow.pdb).length ≠ 1 := by decide

/-- Claim C1 (amended): a row of the retrieved table survives the three
predicate filters exactly when its ligand is ATP, the distinct ligand
values of the rows of the ATP-filtered table sharing its pdb number one
(a condition that is then automatic), and its allosteric_ligand is 0;
surviving rows are kept unchanged and in order, and no other row
survives. -/
theorem claim1_pipeline_filter (t : List Row) :
    pipeline123 t = t.filter (fun r =>
      decide (r.ligand = "ATP") &&
      decide ((ligandsOf (filterATP t) r.pdb).length = 1) &&
      decide (r.allosteric_ligand = 0)) := by
  unfold pipeline123
  rw [singleLigand_noop]
  unfold filterAllosteric filterATP
  rw [List.filter_filter]
  apply List.filter_congr
  intro r hr
  by_cases h1 : r.ligand = "ATP"
  · have h2 : (ligandsOf (filterATP t) r.pdb).length = 1 :=
      atp_group_single (List.mem_filter.mpr ⟨hr, decide_eq_true h1⟩)
    unfold filterATP at h2
    simp [h1, h2]
  · simp [h1]

/-- Claim C7, counterexample: a row whose DFG value is out-like passes
the whole pipeline and the DFG filter, so the filtered table is not
restricted to the DFG values in and out. -/
theorem claim7_counterexample :
    outLikeRow ∈ filterDFG (selectBest (pipeline123 [outLikeRow])) ∧
    outLikeRow.DFG ≠ "in" ∧ outLikeRow.DFG ≠ "out" := by decide

/-- Claim C7 (amended): every DFG value occurring in the filtered
structure table differs from na; the filter guarantees nothing more,
and other values such as out-like may remain. -/
theorem claim7_dfg_not_na (t : List Row) :
    ∀ r ∈ filterDFG (selectBest (pipeline123 t)), r.DFG ≠ "na" := by
  intro r hr
  exact of_decide_eq_true (List.mem_filter.mp hr).2

/-- Claim C7 witness: the amended theorem applied to a singleton table. -/
theorem claim7_witness : baseRow.DFG ≠ "na" :=
  claim7_dfg_not_na [baseRow] baseRow (by decide)

/-- Claim C2: the sort-then-group-head selection returns exactly one row
per distinct pdb value of the filtered table, and the selected row is
optimal in its group: no row of the same pdb group has a higher quality
score, or an equal score and lower resolution, or equal score and
resolution and a lexicographically smaller alt, or equal on all three
and a lexicographically smaller chain. -/
theorem claim2_best_per_pdb (t : List Row) :
    ((selectBest t).map Row.pdb).Nodup ∧
    (∀ p, p ∈ (selectBest t).map Row.pdb ↔ p ∈ t.map Row.pdb) ∧
    ∀ r ∈ selectBest t, ∀ s ∈ t, s.pdb = r.pdb → ¬ betterRow s r := by
  obtain ⟨hnd, hiff⟩ := selectBest_pdbs t
  refine ⟨hnd, hiff, ?_⟩
  intro r hr s hs hpdb
  exact rowLE_not_better ((selectBest_min hr).2 s hs hpdb)

/-- Claim C2 witness: in the concrete two-row group, the selection picks
the higher-quality row and the other row does not beat it. -/
theorem claim2_witness : ¬ betterRow lowRow topRow :=
  (claim2_best_per_pdb twoRowTable).2.2 topRow (by decide) lowRow (by decide)
    (by decide)

/-- Claim C9: the selection is independent of the input row order: for
two permutations of the same filtered table in which no two rows of a
pdb group agree on all four sort keys, both runs cover the same pdb
values and select the same row for every pdb value. -/
theorem claim9_order_independence (t t' : List Row) (hperm : t.Perm t')
    (hties : ∀ a ∈ t, ∀ b ∈ t, a.pdb = b.pdb → sortKey a = sortKey b →
      a = b) :
    (∀ p, p ∈ (selectBest t).map Row.pdb ↔
      p ∈ (selectBest t').map Row.pdb) ∧
    ∀ r ∈ selectBest t, ∀ r' ∈ selectBest t', r.pdb = r'.pdb → r = r' := by
  constructor
  · intro p
    rw [(selectBest_pdbs t).2 p, (selectBest_pdbs t').2 p]
    exact (hperm.map Row.pdb).mem_iff
  · intro r hr r' hr' hpdb
    obtain ⟨hrt, hrmin⟩ := selectBest_min hr
    obtain ⟨hmem2, hmin2⟩ := selectBest_min hr'
    have hmem2t : r' ∈ t := hperm.mem_iff.mpr hmem2
    have h1 : rowLE r r' = true := hrmin r' hmem2t hpdb.symm
    have h2 : rowLE r' r = true :=
      hmin2 r (hperm.mem_iff.mp hrt) hpdb
    exact hties r hrt r' hmem2t hpdb (rowLE_antisymm h1 h2)

/-- Claim C9 witness: the theorem applied to the two orderings of the
concrete two-row group, both of which select the top row. -/
theorem claim9_witness : topRow = topRow :=
  (claim9_order_independence twoRowTable twoRowTableRev (by decide)
    (by decide)).2 topRow (by decide) topRow (by decide) (by decide)

/-- Claim C3: every processed structure (each selected row with aC helix
in) lands in exactly one of the four buckets according to its Mg count
being 0, 1, 2 or more, its text blob is written to the pdb-named file in
that bucket directory, and the four bucket lists together partition the
processed structures. -/
theorem claim3_mg_bucketing (numMg : Row → Nat) (pdbText : Nat → String)
    (t : List Row) :
    (mgRun numMg pdbText (procRows t)).no_mg =
      ((procRows t).filter (fun r => decide (numMg r = 0))).map Row.pdb ∧
    (mgRun numMg pdbText (procRows t)).one_mg =
      ((procRows t).filter (fun r => decide (numMg r = 1))).map Row.pdb ∧
    (mgRun numMg pdbText (procRows t)).two_mg =
      ((procRows t).filter (fun r => decide (numMg r = 2))).map Row.pdb ∧
    (mgRun numMg pdbText (procRows t)).more_mg =
      ((procRows t).filter (fun r => decide (2 < numMg r))).map Row.pdb ∧
    (mgRun numMg pdbText (procRows t)).writes =
      (procRows t).map (fun r =>
        (bucketPath (numMg r) r.pdb, pdbText r.structure_ID)) ∧
    (mgRun numMg pdbText (procRows t)).no_mg.length +
      (mgRun numMg pdbText (procRows t)).one_mg.length +
      (mgRun numMg pdbText (procRows t)).two_mg.length +
      (mgRun numMg pdbText (procRows t)).more_mg.length =
      (procRows t).length := by
  unfold mgRun
  rw [mgFold_spec]
  simp only [mgInit, List.nil_append, List.length_map]
  refine ⟨trivial, trivial, trivial, trivial, trivial, ?_⟩
  exact bucket_length_partition numMg (procRows t)

/-- Claim C5: a (path, contents) pair is written by the atp loop exactly
when some row survives the three filters and the best-row selection, has
DFG different from na and aC helix in, and the path is that row's
pdb-named file in the atp directory with the row's retrieved text. -/
theorem claim5_atp_write_iff (pdbText : Nat → String) (t : List Row)
    (path text : String) :
    (path, text) ∈ atpWrites pdbText t ↔
      ∃ r, r ∈ selectBest (pipeline123 t) ∧ r.DFG ≠ "na" ∧
        r.aC_helix = "in" ∧ path = atpDir ++ "/" ++ r.pdb ++ ".pdb" ∧
        text = pdbText r.structure_ID := by
  unfold atpWrites aC_in filterDFG atpPath
  simp only [List.mem_map, List.mem_filter, decide_eq_true_eq,
    Prod.mk.injEq]
  constructor
  · rintro ⟨r, ⟨⟨hr1, hr2⟩, hr3⟩, hp, ht⟩
    exact ⟨r, hr1, hr2, hr3, hp.symm, ht.symm⟩
  · rintro ⟨r, hr1, hr2, hr3, hp, ht⟩
    exact ⟨r, ⟨⟨hr1, hr2⟩, hr3⟩, hp.symm, ht.symm⟩

/-- Claim C5 witness: the characterization applied to a singleton table
and the concrete path it writes. -/
theorem claim5_witness :
    ∃ r, r ∈ selectBest (pipeline123 [baseRow]) ∧ r.DFG ≠ "na" ∧
      r.aC_helix = "in" ∧
      atpPath ("1abc") = atpDir ++ "/" ++ r.pdb ++ ".pdb" ∧
      ("REMARK" : String) = constText r.structure_ID :=
  (claim5_atp_write_iff constText [baseRow] (atpPath ("1abc"))
    ("REMARK")).mp (by decide)

/-- Claim C10: within each write loop the written paths are pairwise
distinct: the selected rows have pairwise distinct pdb values, the atp
loop writes one pdb-named path per row, and the bucket loop writes one
pdb-named path in a single bucket directory per row, so no iteration
overwrites an earlier one of the same loop. -/
theorem claim10_distinct_paths (numMg : Row → Nat)
    (pdbText : Nat → String) (t : List Row) :
    ((atpWrites pdbText t).map Prod.fst).Nodup ∧
    ((mgRun numMg pdbText (procRows t)).writes.map Prod.fst).Nodup := by
  have hnd0 := (selectBest_pdbs (pipeline123 t)).1
  have hsub : ((procRows t).map Row.pdb).Sublist
      ((selectBest (pipeline123 t)).map Row.pdb) := by
    unfold procRows aC_in filterDFG
    exact ((List.filter_sublist _).trans (List.filter_sublist _)).map Row.pdb
  have hnd : ((procRows t).map Row.pdb).Nodup := hnd0.sublist hsub
  have hpair : (procRows t).Pairwise (fun a b => a.pdb ≠ b.pdb) :=
    List.pairwise_map.mp hnd
  constructor
  · have hmaps : (atpWrites pdbText t).map Prod.fst =
        (procRows t).map (fun r => atpPath r.pdb) := by
      unfold atpWrites procRows
      rw [List.map_map]
      rfl
    rw [hmaps]
    exact List.pairwise_map.mpr
      (hpair.imp (fun h heq => h (atpPath_inj heq)))
  · have hw : (mgRun numMg pdbText (procRows t)).writes =
        (procRows t).map (fun r =>
          (bucketPath (numMg r) r.pdb, pdbText r.structure_ID)) := by
      unfold mgRun
      rw [mgFold_spec]
      simp [mgInit]
    rw [hw, List.map_map]
    exact List.pairwise_map.mpr
      (hpair.imp (fun h heq => h (bucketPath_inj heq)))

/-- Claim C4: the docking loop performs one featurize call per entry of
the tki dictionary, eight in all with distinct ligand names, and the
results table records an outcome row for each of those tkis. -/
theorem claim4_one_featurize_per_tki :
    dockingCalls.length = 8 ∧
    dockingCalls.map DockingCall.ligandName = tkis.map Prod.fst ∧
    (dockingCalls.map DockingCall.ligandName).Nodup ∧
    tkiResults.map TkiResult.tki = tkis.map Prod.fst := by decide

/-- Claim C6: every featurize call of the docking loop uses one of the
eight tki SMILES strings of the input dictionary, a protein named ABL1
and klifs kinase id 392. -/
theorem claim6_fixed_docking_inputs :
    ∀ c ∈ dockingCalls, c.proteinName = "ABL1" ∧
      c.klifs_kinase_id = 392 ∧ c.smiles ∈ tkis.map Prod.snd ∧
      c.ligandName ∈ tkis.map Prod.fst := by decide

/-- Claim C6 witness: the theorem applied to the axitinib call. -/
theorem claim6_witness :
    axitinibCall.proteinName = "ABL1" ∧
    axitinibCall.klifs_kinase_id = 392 ∧
    axitinibCall.smiles ∈ tkis.map Prod.snd ∧
    axitinibCall.ligandName ∈ tkis.map Prod.fst :=
  claim6_fixed_docking_inputs axitinibCall (by decide)

end AblResistance
